import Mathlib

/-!
# ShamsiTray — verification of the calendar/event core

Shallow embedding of the calendar and event-store core of the ShamsiTray
tray application:

* `src/core/tray_controller.py` — event store (`add_user_event`,
  `remove_user_event`, `_clean_expired_events`, `_load_user_events`),
  holiday index (`_load_holidays_from_file`), midnight refresh scheduler
  (`schedule_next_midnight_check`, `_on_midnight_timer_triggered`,
  `_handle_system_time_change`).
* `src/ui/windows/calendar_window.py` — event lookup
  (`_get_user_event_for_date`).
* `src/utils/date_utils.py` — `safe_jdate`.

Python `dict`s (which have unique keys; the spec declares insertion order
irrelevant) are modelled as association lists with unique keys; `del` is
modelled as key-filtering and assignment as erase-then-append.  The parts of
the third-party `jdatetime` library that the code calls (date validation,
`strftime`/`strptime` keys, calendar conversion) are not part of the
repository; they are modelled from the spec where used, as marked on the
individual definitions.
-/

/-- A Jalali (Shamsi) calendar date, as carried by `jdatetime.date`:
year, month, day as plain integers (all positive for constructible dates). -/
structure JalaliDate where
  year : Nat
  month : Nat
  day : Nat
deriving DecidableEq, Repr

/-- A Gregorian calendar date (`datetime.date`). -/
structure GregorianDate where
  year : Nat
  month : Nat
  day : Nat
deriving DecidableEq, Repr

/-- Modelled from the spec: the Jalali leap-year rule of the common Jalali
libraries (the 33-year cycle with 8 leap years, §9 of the design), which is
the rule the `jdatetime` dependency implements; `jdatetime` itself is not
part of the repository.  A year is leap iff its residue mod 33 is one of
1, 5, 9, 13, 17, 22, 26, 30. -/
def jalaliLeap (y : Nat) : Bool :=
  y % 33 == 1 || y % 33 == 5 || y % 33 == 9 || y % 33 == 13 ||
  y % 33 == 17 || y % 33 == 22 || y % 33 == 26 || y % 33 == 30

/-- Jalali month lengths (spec §3): months 1–6 have 31 days, months 7–11
have 30 days, month 12 has 30 days in a leap year and 29 otherwise. -/
def jMonthLen (y m : Nat) : Nat :=
  if m ≤ 6 then 31 else if m ≤ 11 then 30 else if jalaliLeap y then 30 else 29

/-- Modelled from the spec: validity of a Jalali `(year, month, day)` triple
as enforced by `jdatetime.date` construction (spec §3: month 1–12, day not
exceeding the month's length; `jdatetime` years start at 1). -/
def validJTriple (y m d : Nat) : Prop :=
  1 ≤ y ∧ 1 ≤ m ∧ m ≤ 12 ∧ 1 ≤ d ∧ d ≤ jMonthLen y m

instance (y m d : Nat) : Decidable (validJTriple y m d) := by
  unfold validJTriple; infer_instance

/-- Validity of a `JalaliDate` value. -/
def JalaliDate.valid (dt : JalaliDate) : Prop :=
  validJTriple dt.year dt.month dt.day

instance (dt : JalaliDate) : Decidable dt.valid := by
  unfold JalaliDate.valid; infer_instance

/-- `jdatetime.date` comparison: lexicographic on (year, month, day). -/
def jBefore (a b : JalaliDate) : Bool :=
  a.year < b.year ||
  (a.year == b.year && (a.month < b.month ||
    (a.month == b.month && a.day < b.day)))

/-! ## Event keys

`add_user_event` / `remove_user_event` / `_get_user_event_for_date` derive
dictionary keys with `jdate.strftime("%Y-%m-%d")` (the specific key) and
`jdate.strftime("0000-%m-%d")` (the wildcard key).  `strftime` zero-pads
`%Y` to four digits and `%m`/`%d` to two digits for every constructible
`jdatetime` date, so keys are rendered here digit by digit. -/

/-- The character for the decimal digit `n % 10`. -/
def digitCh (n : Nat) : Char := Char.ofNat (48 + n % 10)

/-- The ten-character string `"YYYY-MM-DD"` with zero-padded fields, as
produced by `strftime("%Y-%m-%d")`. -/
def dateKey (y m d : Nat) : String :=
  ⟨[digitCh (y / 1000), digitCh (y / 100), digitCh (y / 10), digitCh y, '-',
    digitCh (m / 10), digitCh m, '-', digitCh (d / 10), digitCh d]⟩

/-- `jdate.strftime("%Y-%m-%d")`: the key of a one-off event. -/
def specificKey (dt : JalaliDate) : String := dateKey dt.year dt.month dt.day

/-- `jdate.strftime("0000-%m-%d")`: the wildcard key of a yearly event. -/
def wildcardKey (dt : JalaliDate) : String := dateKey 0 dt.month dt.day

/-! ## Event records and the store

Persisted event values are Python dicts read with `.get`, so each field may
be absent; `_load_user_events` migration fills the gaps that matter. -/

/-- A stored user-event dict; each field optional because the code reads
them with `dict.get` and legacy persisted shapes may omit fields. -/
structure EventRecord where
  text : Option String
  yearly : Option Bool
  removeAfterFinish : Option Bool
deriving DecidableEq, Repr

/-- `self.user_events`: a Python dict keyed by date strings, modelled as an
association list with unique keys. -/
abbrev EventMap := List (String × EventRecord)

namespace EventMap

/-- Dict lookup (`events[key]` guarded by `key in events`). -/
def find (m : EventMap) (k : String) : Option EventRecord :=
  (List.find? (fun p => p.1 == k) m).map (·.2)

/-- `del events[key]` (guarded by membership; deleting an absent key is a
no-op here, matching the guarded deletes in the code). -/
def eraseKey (m : EventMap) (k : String) : EventMap :=
  m.filter (fun p => p.1 != k)

/-- `events[key] = value`: dicts have unique keys, so assignment replaces
any existing binding; order is irrelevant (spec §3). -/
def insert (m : EventMap) (k : String) (v : EventRecord) : EventMap :=
  m.eraseKey k ++ [(k, v)]

/-- The keys of the map are pairwise distinct (always true of a Python
dict). -/
def NodupKeys (m : EventMap) : Prop := (m.map Prod.fst).Nodup

instance (m : EventMap) : Decidable m.NodupKeys := by
  unfold NodupKeys; infer_instance

end EventMap

/-! ## The event-store operations of `SystemTrayIcon` -/

/-- `SystemTrayIcon.remove_user_event` (tray_controller.py:203-218), acting
on the `user_events` dict: deletes the specific key and the wildcard key of
`jdate` when present.  The `if not jdate` guard makes a missing date a
no-op; persistence (`save`) is external to the store contents. -/
def removeUserEvent : Option JalaliDate → EventMap → EventMap
  | none, m => m
  | some dt, m => EventMap.eraseKey (EventMap.eraseKey m (specificKey dt)) (wildcardKey dt)

/-- `SystemTrayIcon.add_user_event` (tray_controller.py:186-201), acting on
the `user_events` dict: first removes both keys of `jdate`, then — if
yearly — forces `remove_after_finish = False` and writes under the wildcard
key, else writes under the specific key. -/
def addUserEvent : Option JalaliDate → String → Bool → Bool → EventMap → EventMap
  | none, _, _, _, m => m
  | some dt, text, true, _, m =>
    EventMap.insert (removeUserEvent (some dt) m) (wildcardKey dt)
      ⟨some text, some true, some false⟩
  | some dt, text, false, removeAfterFinish, m =>
    EventMap.insert (removeUserEvent (some dt) m) (specificKey dt)
      ⟨some text, some false, some removeAfterFinish⟩

/-- `PersianCalendarWidget._get_user_event_for_date`
(calendar_window.py:208-220): the specific key is consulted first and its
record's fields returned; only if it is absent is the wildcard key
consulted, reported with `yearly = True`. -/
def getUserEventForDate (m : EventMap) (dt : JalaliDate) :
    Option String × Bool × Bool :=
  match m.find (specificKey dt) with
  | some r => (r.text, r.yearly.getD false, r.removeAfterFinish.getD false)
  | none =>
    match m.find (wildcardKey dt) with
    | some r => (r.text, true, r.removeAfterFinish.getD false)
    | none => (none, false, false)


/-! ## Key-disequality facts -/

lemma digitCh_mod (a : Nat) : digitCh a = digitCh (a % 10) := by
  unfold digitCh
  rw [Nat.mod_mod_of_dvd _ (by norm_num)]

lemma digitCh_inj_lt : ∀ a < 10, ∀ b < 10, digitCh a = digitCh b → a = b := by decide

lemma digitCh_inj {a b : Nat} (h : digitCh a = digitCh b) : a % 10 = b % 10 := by
  rw [digitCh_mod a, digitCh_mod b] at h
  exact digitCh_inj_lt _ (Nat.mod_lt _ (by norm_num)) _ (Nat.mod_lt _ (by norm_num)) h

lemma dateKey_inj {y m d y' m' d' : Nat} (h : dateKey y m d = dateKey y' m' d') :
    y % 10000 = y' % 10000 ∧ m % 100 = m' % 100 ∧ d % 100 = d' % 100 := by
  unfold dateKey at h
  injection h with h
  simp only [List.cons.injEq, and_true] at h
  obtain ⟨h1, h2, h3, h4, -, h5, h6, -, h7, h8⟩ := h
  have e1 := digitCh_inj h1
  have e2 := digitCh_inj h2
  have e3 := digitCh_inj h3
  have e4 := digitCh_inj h4
  have e5 := digitCh_inj h5
  have e6 := digitCh_inj h6
  have e7 := digitCh_inj h7
  have e8 := digitCh_inj h8
  refine ⟨?_, ?_, ?_⟩ <;> omega

lemma specificKey_ne_wildcardKey {dt : JalaliDate} (h1 : 1 ≤ dt.year)
    (h4 : dt.year < 10000) {dt' : JalaliDate} :
    specificKey dt ≠ wildcardKey dt' := by
  intro h
  have := (dateKey_inj h).1
  omega

lemma specificKey_ne_of_year_ne {a b : JalaliDate} (ha : a.year < 10000)
    (hb : b.year < 10000) (h : a.year ≠ b.year) :
    specificKey a ≠ specificKey b := by
  intro he
  have := (dateKey_inj he).1
  omega

/-! ## Find/erase/insert laws -/

namespace EventMap

lemma find_nil (k : String) : find [] k = none := rfl

lemma find_cons (p : String × EventRecord) (m : EventMap) (k : String) :
    find (p :: m) k = if p.1 = k then some p.2 else find m k := by
  by_cases h : p.1 = k
  · simp [find, List.find?_cons_of_pos, h]
  · simp [find, List.find?_cons_of_neg, h]

lemma find?_eraseKey_self (m : EventMap) (k : String) :
    List.find? (fun p => p.1 == k) (eraseKey m k) = none := by
  rw [List.find?_eq_none]
  intro p hp
  have h := List.of_mem_filter hp
  simp only [bne_iff_ne, ne_eq] at h
  simpa using h

lemma find_eraseKey_self (m : EventMap) (k : String) :
    find (eraseKey m k) k = none := by
  simp [find, find?_eraseKey_self]

lemma find_insert_self (m : EventMap) (k : String) (v : EventRecord) :
    find (insert m k v) k = some v := by
  simp only [insert, find, List.find?_append, find?_eraseKey_self, Option.none_or]
  simp [List.find?]

lemma eraseKey_cons_of_eq (p : String × EventRecord) (m : EventMap) {k : String}
    (h : p.1 = k) : eraseKey (p :: m) k = eraseKey m k := by
  simp [eraseKey, List.filter_cons, h]

lemma eraseKey_cons_of_ne (p : String × EventRecord) (m : EventMap) {k : String}
    (h : p.1 ≠ k) : eraseKey (p :: m) k = p :: eraseKey m k := by
  simp [eraseKey, List.filter_cons, h]

lemma find_eraseKey_ne (m : EventMap) {k kq : String} (h : kq ≠ k) :
    find (eraseKey m k) kq = find m kq := by
  induction m with
  | nil => rfl
  | cons p m ih =>
    by_cases hp : p.1 = k
    · rw [eraseKey_cons_of_eq p m hp, ih, find_cons,
        if_neg (by rw [hp]; exact fun hh => h hh.symm)]
    · rw [eraseKey_cons_of_ne p m hp, find_cons, find_cons, ih]

end EventMap

/-- C1: event lookup checks the specific key first and returns that
record's fields; only when it is absent is the wildcard key checked, the
match reported with `yearly = true`.  Consequently a one-off event on a
date wins over a yearly event with the same month/day, while the yearly
event is still returned for the same month/day in any other year. -/
theorem c1_lookup_precedence :
    (∀ (m : EventMap) (dt : JalaliDate) (r : EventRecord),
        m.find (specificKey dt) = some r →
        getUserEventForDate m dt
          = (r.text, r.yearly.getD false, r.removeAfterFinish.getD false)) ∧
    (∀ (m : EventMap) (dt : JalaliDate) (r : EventRecord),
        m.find (specificKey dt) = none →
        m.find (wildcardKey dt) = some r →
        getUserEventForDate m dt = (r.text, true, r.removeAfterFinish.getD false)) ∧
    (∀ (d dw q : JalaliDate) (tA tB : String),
        d.valid → dw.valid → q.valid →
        d.year < 10000 → dw.year < 10000 → q.year < 10000 →
        dw.month = d.month → dw.day = d.day → dw.year ≠ d.year →
        q.month = d.month → q.day = d.day → q.year ≠ d.year →
        getUserEventForDate
            (addUserEvent (some dw) tB true false
              (addUserEvent (some d) tA false false [])) d
          = (some tA, false, false) ∧
        getUserEventForDate
            (addUserEvent (some dw) tB true false
              (addUserEvent (some d) tA false false [])) q
          = (some tB, true, false)) := by
  refine ⟨?_, ?_, ?_⟩
  · intro m dt r h
    simp [getUserEventForDate, h]
  · intro m dt r h1 h2
    simp [getUserEventForDate, h1, h2]
  · intro d dw q tA tB hvd hvdw hvq hb hbw hbq hm hdd hy hqm hqd hqy
    have hd1 : 1 ≤ d.year := hvd.1
    have hq1 : 1 ≤ q.year := hvq.1
    have hsd_sw : specificKey d ≠ specificKey dw :=
      specificKey_ne_of_year_ne hb hbw (fun hh => hy hh.symm)
    have hsd_w : specificKey d ≠ wildcardKey dw :=
      specificKey_ne_wildcardKey hd1 hb
    have store_eq :
        addUserEvent (some dw) tB true false
            (addUserEvent (some d) tA false false [])
          = [(specificKey d, ⟨some tA, some false, some false⟩),
             (wildcardKey dw, ⟨some tB, some true, some false⟩)] := by
      show EventMap.insert
          (EventMap.eraseKey
            (EventMap.eraseKey [(specificKey d, ⟨some tA, some false, some false⟩)]
              (specificKey dw))
            (wildcardKey dw))
          (wildcardKey dw) ⟨some tB, some true, some false⟩ = _
      rw [EventMap.eraseKey_cons_of_ne _ _ hsd_sw,
        EventMap.eraseKey_cons_of_ne _ _ hsd_w]
      show EventMap.insert [(specificKey d, _)] _ _ = _
      rw [EventMap.insert, EventMap.eraseKey_cons_of_ne _ _ hsd_w]
      rfl
    have hwq_weq : wildcardKey q = wildcardKey dw := by
      unfold wildcardKey
      rw [hqm, hqd, hm, hdd]
    have hsq_sd : specificKey q ≠ specificKey d :=
      specificKey_ne_of_year_ne hbq hb hqy
    have hsq_w : specificKey q ≠ wildcardKey dw :=
      specificKey_ne_wildcardKey hq1 hbq
    have hsd_wq : specificKey d ≠ wildcardKey q :=
      specificKey_ne_wildcardKey hd1 hb
    constructor
    · rw [store_eq]
      simp [getUserEventForDate, EventMap.find_cons]
    · rw [store_eq]
      unfold getUserEventForDate
      rw [EventMap.find_cons,
        if_neg (show ¬ specificKey d = specificKey q from fun hh => hsq_sd hh.symm),
        EventMap.find_cons,
        if_neg (show ¬ wildcardKey dw = specificKey q from fun hh => hsq_w hh.symm),
        EventMap.find_nil,
        EventMap.find_cons,
        if_neg (show ¬ specificKey d = wildcardKey q from hsd_wq),
        EventMap.find_cons,
        if_pos hwq_weq.symm]
      rfl

/-! ## C2: record count under a date's two keys -/

/-- The number of records stored under either of `dt`'s keys (specific or
wildcard). -/
def countForDate (dt : JalaliDate) (m : EventMap) : Nat :=
  (m.filter (fun p => p.1 == specificKey dt || p.1 == wildcardKey dt)).length

/-- One store mutation for a fixed date: an `add_user_event` or a
`remove_user_event` call. -/
inductive StoreOp where
  | add (text : String) (isYearly removeAfterFinish : Bool)
  | remove

/-- Apply one operation for date `dt` to the store. -/
def applyStoreOp (dt : JalaliDate) (m : EventMap) : StoreOp → EventMap
  | .add t y r => addUserEvent (some dt) t y r m
  | .remove => removeUserEvent (some dt) m

/-- Apply a sequence of operations for date `dt`, left to right. -/
def applyStoreOps (dt : JalaliDate) (m : EventMap) (ops : List StoreOp) : EventMap :=
  ops.foldl (applyStoreOp dt) m

lemma countForDate_removeUserEvent (dt : JalaliDate) (m : EventMap) :
    countForDate dt (removeUserEvent (some dt) m) = 0 := by
  unfold countForDate removeUserEvent
  rw [List.length_eq_zero]
  rw [List.filter_eq_nil_iff]
  intro p hp
  have h2 := List.of_mem_filter hp
  have h1 := List.of_mem_filter (List.mem_of_mem_filter hp)
  simp only [bne_iff_ne, ne_eq] at h1 h2
  simp [h1, h2]

lemma countForDate_insert (dt : JalaliDate) (m : EventMap) (k : String)
    (v : EventRecord)
    (hk : (k == specificKey dt || k == wildcardKey dt) = true)
    (h0 : countForDate dt m = 0) :
    countForDate dt (EventMap.insert m k v) = 1 := by
  unfold countForDate at *
  unfold EventMap.insert
  have h0' : List.filter (fun p => p.1 == specificKey dt || p.1 == wildcardKey dt)
      (EventMap.eraseKey m k) = [] := by
    rw [List.filter_eq_nil_iff]
    intro p hp
    have hm : p ∈ m := List.mem_of_mem_filter hp
    rw [List.length_eq_zero, List.filter_eq_nil_iff] at h0
    exact h0 p hm
  rw [List.filter_append, h0']
  simp [List.filter_cons, hk]

lemma countForDate_addUserEvent (dt : JalaliDate) (m : EventMap)
    (t : String) (y r : Bool) :
    countForDate dt (addUserEvent (some dt) t y r m) = 1 := by
  have hrem := countForDate_removeUserEvent dt m
  cases y with
  | true =>
    simp only [addUserEvent]
    exact countForDate_insert dt _ _ _ (by simp) hrem
  | false =>
    simp only [addUserEvent]
    exact countForDate_insert dt _ _ _ (by simp) hrem

lemma countForDate_applyStoreOp_le (dt : JalaliDate) (m : EventMap) (op : StoreOp) :
    countForDate dt (applyStoreOp dt m op) ≤ 1 := by
  cases op with
  | add t y r => rw [applyStoreOp, countForDate_addUserEvent]
  | remove => rw [applyStoreOp, countForDate_removeUserEvent]; omega

lemma countForDate_applyStoreOps_le (dt : JalaliDate) (ops : List StoreOp) :
    ∀ m : EventMap, countForDate dt m ≤ 1 →
      countForDate dt (applyStoreOps dt m ops) ≤ 1 := by
  induction ops with
  | nil => intro m h; exact h
  | cons op ops ih =>
    intro m _
    rw [applyStoreOps, List.foldl_cons]
    exact ih _ (countForDate_applyStoreOp_le dt m op)

/-- C2: adding an event for date `d` first deletes any record under both
of `d`'s keys before writing the new record under exactly one of them, so
after any sequence of `add_user_event`/`remove_user_event` calls for `d`,
at most one record exists under `d`'s specific and wildcard keys combined;
after two consecutive adds for `d`, exactly one such record exists. -/
theorem c2_at_most_one_record :
    (∀ (dt : JalaliDate) (m : EventMap) (op : StoreOp) (ops : List StoreOp),
        countForDate dt (applyStoreOps dt m (op :: ops)) ≤ 1) ∧
    (∀ (dt : JalaliDate) (m : EventMap) (t t' : String) (y r y' r' : Bool),
        countForDate dt
          (addUserEvent (some dt) t' y' r' (addUserEvent (some dt) t y r m)) = 1) := by
  constructor
  · intro dt m op ops
    rw [applyStoreOps, List.foldl_cons]
    exact countForDate_applyStoreOps_le dt ops _ (countForDate_applyStoreOp_le dt m op)
  · intro dt m t t' y r y' r'
    exact countForDate_addUserEvent dt _ t' y' r'

/-- C9: every record stored by a yearly add has
`remove_after_finish = false`: `add_user_event(d, t, yearly=True, raf)`
stores, under the wildcard key, a record whose `remove_after_finish` field
is `false`, whatever `raf` was passed. -/
theorem c9_yearly_forces_no_autoremove :
    ∀ (m : EventMap) (dt : JalaliDate) (t : String) (raf : Bool),
      (addUserEvent (some dt) t true raf m).find (wildcardKey dt)
        = some ⟨some t, some true, some false⟩ := by
  intro m dt t raf
  simp only [addUserEvent]
  exact EventMap.find_insert_self _ _ _

/-- Witness for C1: concrete one-off event on 1403-01-05, yearly event
added via 1402-01-05, lookup queried at 1403-01-05 and 1404-01-05. -/
theorem c1_witness :
    getUserEventForDate
        (addUserEvent (some ⟨1402, 1, 5⟩) "B" true false
          (addUserEvent (some ⟨1403, 1, 5⟩) "A" false false [])) ⟨1403, 1, 5⟩
      = (some "A", false, false) ∧
    getUserEventForDate
        (addUserEvent (some ⟨1402, 1, 5⟩) "B" true false
          (addUserEvent (some ⟨1403, 1, 5⟩) "A" false false [])) ⟨1404, 1, 5⟩
      = (some "B", true, false) :=
  c1_lookup_precedence.2.2 ⟨1403, 1, 5⟩ ⟨1402, 1, 5⟩ ⟨1404, 1, 5⟩ "A" "B"
    (by decide) (by decide) (by decide) (by decide) (by decide) (by decide)
    rfl rfl (by decide) rfl rfl (by decide)

/-! ## Expiry cleanup (`_clean_expired_events`) -/

/-- Decimal value of a digit string. -/
def digitsToNat (l : List Char) : Nat :=
  l.foldl (fun acc c => acc * 10 + (c.toNat - 48)) 0

/-- Python `str.split` on the single character `'-'`, on the character
list of the string (`"".split('-')` is `[""]`, separators at the ends and
adjacent separators produce empty fields). -/
def splitDash : List Char → List (List Char)
  | [] => [[]]
  | c :: rest =>
    match splitDash rest with
    | cur :: others => if c = '-' then [] :: cur :: others else (c :: cur) :: others
    | [] => [[]]

/-- Modelled from the spec: `jdatetime.datetime.strptime(s, "%Y-%m-%d")`,
the date parser the cleanup uses; `jdatetime` is not part of the
repository.  `%Y` matches exactly four digits, `%m` and `%d` one or two,
joined by literal dashes covering the whole string; the matched numbers
must then form a valid date or the parse raises (here: `none`). -/
def strptimeDate (s : String) : Option JalaliDate :=
  match splitDash s.data with
  | [ys, ms, ds] =>
    if ys.length = 4 ∧ ys.all Char.isDigit
        ∧ 1 ≤ ms.length ∧ ms.length ≤ 2 ∧ ms.all Char.isDigit
        ∧ 1 ≤ ds.length ∧ ds.length ≤ 2 ∧ ds.all Char.isDigit then
      if validJTriple (digitsToNat ys) (digitsToNat ms) (digitsToNat ds) then
        some ⟨digitsToNat ys, digitsToNat ms, digitsToNat ds⟩
      else none
    else none
  | _ => none

/-- The loop-body test of `_clean_expired_events`
(tray_controller.py:223-231): an entry is slated for removal iff it is not
yearly, is marked remove-after-finish, and its key parses as a date
strictly before `today`; a parse failure is caught and the entry skipped. -/
def shouldRemoveEvent (today : JalaliDate) (kv : String × EventRecord) : Bool :=
  !(kv.2.yearly.getD false) && (kv.2.removeAfterFinish.getD false) &&
    (match strptimeDate kv.1 with
     | some dt => jBefore dt today
     | none => false)

/-- `SystemTrayIcon._clean_expired_events` (tray_controller.py:220-239):
first collects the keys of all entries slated for removal, then deletes
them from the store. -/
def cleanExpiredEvents (today : JalaliDate) (m : EventMap) : EventMap :=
  ((m.filter (shouldRemoveEvent today)).map Prod.fst).foldl EventMap.eraseKey m

lemma mem_eraseKey {m : EventMap} {k : String} {p : String × EventRecord} :
    p ∈ EventMap.eraseKey m k ↔ p ∈ m ∧ p.1 ≠ k := by
  simp [EventMap.eraseKey, List.mem_filter]

lemma mem_foldl_eraseKey (ks : List String) :
    ∀ (m : EventMap) (p : String × EventRecord),
      p ∈ ks.foldl EventMap.eraseKey m ↔ p ∈ m ∧ p.1 ∉ ks := by
  induction ks with
  | nil => intro m p; simp
  | cons k ks ih =>
    intro m p
    rw [List.foldl_cons, ih, mem_eraseKey]
    simp only [List.mem_cons]
    tauto

lemma nodupKeys_value_eq {m : EventMap} (h : m.NodupKeys) {k : String}
    {v v' : EventRecord} (h1 : (k, v) ∈ m) (h2 : (k, v') ∈ m) : v = v' := by
  induction m with
  | nil => cases h1
  | cons p m ih =>
    have hnd : (p.1 :: m.map Prod.fst).Nodup := by
      simpa [EventMap.NodupKeys] using h
    rcases List.mem_cons.mp h1 with he1 | hm1 <;>
      rcases List.mem_cons.mp h2 with he2 | hm2
    · rw [← he1] at he2; exact (Prod.mk.injEq _ _ _ _ ▸ he2.symm :
        (k = k ∧ v = v')).2
    · exfalso
      have : k ∈ m.map Prod.fst := List.mem_map.mpr ⟨(k, v'), hm2, rfl⟩
      rw [← he1] at hnd
      exact (List.nodup_cons.mp hnd).1 this
    · exfalso
      have : k ∈ m.map Prod.fst := List.mem_map.mpr ⟨(k, v), hm1, rfl⟩
      rw [← he2] at hnd
      exact (List.nodup_cons.mp hnd).1 this
    · exact ih (by simpa [EventMap.NodupKeys] using (List.nodup_cons.mp hnd).2) hm1 hm2

/-- Per-entry characterization of the cleanup, for a store with unique
keys (as a Python dict always has). -/
lemma cleanExpiredEvents_mem {today : JalaliDate} {m : EventMap}
    (hnd : m.NodupKeys) (k : String) (v : EventRecord) :
    (k, v) ∈ cleanExpiredEvents today m ↔
      (k, v) ∈ m ∧ shouldRemoveEvent today (k, v) = false := by
  unfold cleanExpiredEvents
  rw [mem_foldl_eraseKey]
  constructor
  · rintro ⟨hm, hk⟩
    refine ⟨hm, ?_⟩
    by_contra hc
    rw [Bool.not_eq_false] at hc
    exact hk (List.mem_map.mpr ⟨(k, v), List.mem_filter.mpr ⟨hm, hc⟩, rfl⟩)
  · rintro ⟨hm, hs⟩
    refine ⟨hm, fun hk => ?_⟩
    obtain ⟨⟨k2, v2⟩, hmem, hfst⟩ := List.mem_map.mp hk
    obtain ⟨hm2, hs2⟩ := List.mem_filter.mp hmem
    cases hfst
    rw [nodupKeys_value_eq hnd hm hm2] at hs
    rw [hs] at hs2
    cases hs2

lemma shouldRemoveEvent_iff (today : JalaliDate) (k : String) (v : EventRecord) :
    shouldRemoveEvent today (k, v) = true ↔
      v.yearly.getD false = false ∧ v.removeAfterFinish.getD false = true ∧
      ∃ dt, strptimeDate k = some dt ∧ jBefore dt today = true := by
  unfold shouldRemoveEvent
  cases hp : strptimeDate k <;>
    simp [hp, Bool.and_eq_true, Bool.not_eq_true', and_assoc]

/-- C3: `cleanup_expired(today)` removes exactly the stored records whose
key parses as a date and which are non-yearly, marked remove-after-finish,
and dated strictly before `today`; yearly records, records without the
remove-after-finish mark, and records dated today or later all survive. -/
theorem c3_cleanup_exact :
    ∀ (today : JalaliDate) (m : EventMap) (k : String) (v : EventRecord),
      m.NodupKeys →
      ((k, v) ∈ cleanExpiredEvents today m ↔
        (k, v) ∈ m ∧
        ¬(v.yearly.getD false = false ∧ v.removeAfterFinish.getD false = true ∧
          ∃ dt, strptimeDate k = some dt ∧ jBefore dt today = true)) := by
  intro today m k v hnd
  rw [cleanExpiredEvents_mem hnd, ← shouldRemoveEvent_iff today k v,
    Bool.not_eq_true]

/-- Witness for C3: the spec's expiry example.  With `today = 1403-01-10`,
a non-yearly remove-after-finish record dated `1403-01-05` is removed
while the yearly record on the same month/day survives. -/
theorem c3_witness :
    (EventMap.NodupKeys
        [("1403-01-05", ⟨some "x", some false, some true⟩),
         ("0000-01-05", ⟨some "y", some true, some false⟩)]) ∧
    (("1403-01-05", (⟨some "x", some false, some true⟩ : EventRecord)) ∈
        cleanExpiredEvents ⟨1403, 1, 10⟩
          [("1403-01-05", ⟨some "x", some false, some true⟩),
           ("0000-01-05", ⟨some "y", some true, some false⟩)] ↔
      ("1403-01-05", (⟨some "x", some false, some true⟩ : EventRecord)) ∈
          [("1403-01-05", (⟨some "x", some false, some true⟩ : EventRecord)),
           ("0000-01-05", ⟨some "y", some true, some false⟩)] ∧
        ¬((false : Bool) = false ∧ (true : Bool) = true ∧
          ∃ dt, strptimeDate "1403-01-05" = some dt ∧
            jBefore dt ⟨1403, 1, 10⟩ = true)) := by
  constructor
  · decide
  · exact c3_cleanup_exact ⟨1403, 1, 10⟩ _ "1403-01-05"
      ⟨some "x", some false, some true⟩ (by decide)

lemma nodupKeys_eraseKey {m : EventMap} (h : m.NodupKeys) (k : String) :
    (EventMap.eraseKey m k).NodupKeys := by
  unfold EventMap.NodupKeys EventMap.eraseKey at *
  exact h.sublist (List.Sublist.map Prod.fst (List.filter_sublist m))

/-- C8: during cleanup, a stored entry whose key does not parse as a
"YYYY-MM-DD" date is left in the store unchanged — never removed — and its
presence does not change the outcome for any other entry (the cleanup
decision is per-entry). -/
theorem c8_malformed_key_left_alone :
    ∀ (today : JalaliDate) (m : EventMap) (k : String) (v : EventRecord),
      m.NodupKeys → strptimeDate k = none →
      ((k, v) ∈ m → (k, v) ∈ cleanExpiredEvents today m) ∧
      (∀ (kq : String) (vq : EventRecord), kq ≠ k →
        ((kq, vq) ∈ cleanExpiredEvents today m ↔
          (kq, vq) ∈ cleanExpiredEvents today (EventMap.eraseKey m k))) := by
  intro today m k v hnd hparse
  constructor
  · intro hm
    rw [cleanExpiredEvents_mem hnd]
    exact ⟨hm, by simp [shouldRemoveEvent, hparse]⟩
  · intro kq vq hne
    rw [cleanExpiredEvents_mem hnd, cleanExpiredEvents_mem (nodupKeys_eraseKey hnd k),
      mem_eraseKey]
    tauto

/-- Witness for C8: a store holding a record under the unparsable key
"garbage" together with a well-formed expired record. -/
theorem c8_witness :
    (("garbage", (⟨some "g", some false, some true⟩ : EventRecord)) ∈
        [("garbage", (⟨some "g", some false, some true⟩ : EventRecord))] →
      ("garbage", (⟨some "g", some false, some true⟩ : EventRecord)) ∈
        cleanExpiredEvents ⟨1403, 1, 10⟩
          [("garbage", ⟨some "g", some false, some true⟩)]) ∧
    (∀ (kq : String) (vq : EventRecord), kq ≠ "garbage" →
      ((kq, vq) ∈ cleanExpiredEvents ⟨1403, 1, 10⟩
          [("garbage", (⟨some "g", some false, some true⟩ : EventRecord))] ↔
        (kq, vq) ∈ cleanExpiredEvents ⟨1403, 1, 10⟩
          (EventMap.eraseKey [("garbage", ⟨some "g", some false, some true⟩)]
            "garbage"))) :=
  c8_malformed_key_left_alone ⟨1403, 1, 10⟩
    [("garbage", ⟨some "g", some false, some true⟩)] "garbage"
    ⟨some "g", some false, some true⟩ (by decide) (by decide)

example : strptimeDate "1403-01-05" = some ⟨1403, 1, 5⟩ := by decide
example : strptimeDate "0000-01-05" = none := by decide
example : strptimeDate "1403-1-5" = some ⟨1403, 1, 5⟩ := by decide
example : strptimeDate "1403-13-05" = none := by decide
example : strptimeDate "1403-01-05x" = none := by decide

/-! ## Loading user events (`_load_user_events`) -/

/-- A value as persisted in QSettings under the user-events key: either a
legacy bare string or a dict (possibly missing fields). -/
inductive PersistedValue where
  | str (s : String)
  | dict (r : EventRecord)
deriving DecidableEq, Repr

/-- The loop body of `_load_user_events` (tray_controller.py:169-175) on
one key→value pair: a bare string is wrapped into the full record shape, a
dict missing `remove_after_finish` gets it filled with `False`; the second
component reports whether this entry set the `migrated` flag. -/
def migrateEntry : String × PersistedValue → (String × EventRecord) × Bool
  | (k, .str s) => ((k, ⟨some s, some false, some false⟩), true)
  | (k, .dict r) =>
    match r.removeAfterFinish with
    | none => ((k, { r with removeAfterFinish := some false }), true)
    | some _ => ((k, r), false)

/-- Whether `_load_user_events` migrates a persisted value. -/
def needsMigration : PersistedValue → Bool
  | .str _ => true
  | .dict r => r.removeAfterFinish.isNone

/-- `SystemTrayIcon._load_user_events` (tray_controller.py:165-180):
iterates the persisted pairs updating values in place, tracking a
`migrated` flag that starts `False`; the flag decides whether the store is
written back immediately after load. -/
def loadUserEvents (raw : List (String × PersistedValue)) : EventMap × Bool :=
  raw.foldl
    (fun acc e => (acc.1 ++ [(migrateEntry e).1], acc.2 || (migrateEntry e).2))
    ([], false)

lemma loadUserEvents_foldl (raw : List (String × PersistedValue)) :
    ∀ (acc : EventMap × Bool),
      raw.foldl
          (fun acc e => (acc.1 ++ [(migrateEntry e).1], acc.2 || (migrateEntry e).2))
          acc
        = (acc.1 ++ raw.map (fun e => (migrateEntry e).1),
           acc.2 || raw.any (fun e => (migrateEntry e).2)) := by
  induction raw with
  | nil => intro acc; simp
  | cons e raw ih =>
    intro acc
    rw [List.foldl_cons, ih]
    simp [Bool.or_assoc]

lemma migrateEntry_flag (e : String × PersistedValue) :
    (migrateEntry e).2 = needsMigration e.2 := by
  obtain ⟨k, v⟩ := e
  cases v with
  | str s => rfl
  | dict r => cases hr : r.removeAfterFinish <;> simp [migrateEntry, needsMigration, hr]

/-- C7: on load, every bare-string value `s` is replaced by the record
`{text: s, yearly: false, remove_after_finish: false}`, every dict value
lacking `remove_after_finish` gets it filled with `false` (other fields
unchanged), all other entries and all keys are untouched, and the store is
written back immediately after load iff at least one entry was migrated. -/
theorem c7_load_migration :
    ∀ raw : List (String × PersistedValue),
      (loadUserEvents raw).1 = raw.map (fun e => (migrateEntry e).1) ∧
      (∀ (k : String) (s : String),
        migrateEntry (k, .str s) = ((k, ⟨some s, some false, some false⟩), true)) ∧
      (∀ (k : String) (r : EventRecord), r.removeAfterFinish = none →
        migrateEntry (k, .dict r) = ((k, ⟨r.text, r.yearly, some false⟩), true)) ∧
      (∀ (k : String) (r : EventRecord) (b : Bool), r.removeAfterFinish = some b →
        migrateEntry (k, .dict r) = ((k, r), false)) ∧
      ((loadUserEvents raw).2 = true ↔
        ∃ e ∈ raw, needsMigration e.2 = true) := by
  intro raw
  have hfold := loadUserEvents_foldl raw ([], false)
  refine ⟨?_, ?_, ?_, ?_, ?_⟩
  · rw [loadUserEvents, hfold]; simp
  · intro k s; rfl
  · intro k r hr; simp [migrateEntry, hr]
  · intro k r b hr; simp [migrateEntry, hr]
  · rw [loadUserEvents, hfold]
    simp only [Bool.false_or, List.any_eq_true]
    constructor
    · rintro ⟨e, he, hf⟩
      exact ⟨e, he, by rw [← migrateEntry_flag]; exact hf⟩
    · rintro ⟨e, he, hf⟩
      exact ⟨e, he, by rw [migrateEntry_flag]; exact hf⟩

/-- Witness for C7: a dict value missing `remove_after_finish` is filled
with `false` and flagged; one carrying the field is untouched and not
flagged. -/
theorem c7_witness :
    migrateEntry ("1403-01-01", .dict ⟨some "t", some false, none⟩)
        = (("1403-01-01", ⟨some "t", some false, some false⟩), true) ∧
    migrateEntry ("1403-02-02", .dict ⟨some "u", some true, some true⟩)
        = (("1403-02-02", ⟨some "u", some true, some true⟩), false) :=
  ⟨(c7_load_migration []).2.2.1 "1403-01-01" ⟨some "t", some false, none⟩ rfl,
   (c7_load_migration []).2.2.2.1 "1403-02-02" ⟨some "u", some true, some true⟩
     true rfl⟩

/-! ## Holiday index (`_load_holidays_from_file`) -/

/-- A holiday description as found in the JSON source: a single string or
a list of strings. -/
inductive HolidayDesc where
  | str (s : String)
  | list (l : List String)
deriving DecidableEq, Repr

/-- `[desc] if isinstance(desc, str) else desc` (tray_controller.py:157). -/
def normalizeDesc : HolidayDesc → List String
  | .str s => [s]
  | .list l => l

/-- Python `int(s)` on the strings occurring as JSON keys: an optional
sign followed by at least one decimal digit; anything else raises
`ValueError` (here: `none`). -/
def parsePyInt (s : String) : Option Int :=
  match s.data with
  | '-' :: rest =>
    if rest ≠ [] ∧ rest.all Char.isDigit then some (-(digitsToNat rest : Int)) else none
  | '+' :: rest =>
    if rest ≠ [] ∧ rest.all Char.isDigit then some (digitsToNat rest : Int) else none
  | l => if l ≠ [] ∧ l.all Char.isDigit then some (digitsToNat l : Int) else none

/-- `month, day = map(int, month_day_str.split('-'))`
(tray_controller.py:156): the split must produce exactly two parts and
both must parse as integers, else a `ValueError` propagates. -/
def parseMonthDay (s : String) : Option (Int × Int) :=
  match splitDash s.data with
  | [a, b] =>
    match parsePyInt ⟨a⟩, parsePyInt ⟨b⟩ with
    | some x, some y => some (x, y)
    | _, _ => none
  | _ => none

/-- The holiday index: year → ((month, day) → reasons). -/
abbrev HolidayIndex := List (Int × List ((Int × Int) × List String))

/-- The inner loop of `_load_holidays_from_file` over one year's entries;
`none` models a `ValueError` escaping the loop body. -/
def loadYearEvents : List (String × HolidayDesc) → Option (List ((Int × Int) × List String))
  | [] => some []
  | (mdStr, desc) :: rest =>
    match parseMonthDay mdStr with
    | none => none
    | some md =>
      match loadYearEvents rest with
      | none => none
      | some l => some ((md, normalizeDesc desc) :: l)

/-- The outer loop of `_load_holidays_from_file` over the years of the
source; `none` models a `ValueError` escaping (bad year key or bad
month-day entry). -/
def loadHolidaysCore : List (String × List (String × HolidayDesc)) → Option HolidayIndex
  | [] => some []
  | (yearStr, events) :: rest =>
    match parsePyInt yearStr with
    | none => none
    | some y =>
      match loadYearEvents events with
      | none => none
      | some l =>
        match loadHolidaysCore rest with
        | none => none
        | some idx => some ((y, l) :: idx)

/-- `SystemTrayIcon._load_holidays_from_file` (tray_controller.py:147-163):
`none` input models a missing/unreadable/non-JSON file (`IOError`,
`json.JSONDecodeError`); any `ValueError` inside the parse loop is caught
by the same `except` clause, and in every failure case the whole function
returns the empty dict. -/
def loadHolidaysFromFile
    (raw : Option (List (String × List (String × HolidayDesc)))) : HolidayIndex :=
  match raw with
  | none => []
  | some r =>
    match loadHolidaysCore r with
    | none => []
    | some idx => idx

/-- C4 as stated is false: a single malformed "MM-DD" entry empties the
whole index.  The source below holds a well-formed Nowruz entry next to a
malformed one; the claim predicts the Nowruz entry is still loaded, but
the result is the empty index — while without the malformed entry the
Nowruz entry does load. -/
theorem c4_counterexample :
    loadHolidaysFromFile
        (some [("1403", [("01-01", .str "Nowruz"), ("xx-yy", .str "Bad")])]) = [] ∧
    loadHolidaysFromFile (some [("1403", [("01-01", .str "Nowruz")])])
      = [(1403, [((1, 1), ["Nowruz"])])] := by
  constructor <;> decide

lemma loadYearEvents_eq_none {events : List (String × HolidayDesc)}
    {mdStr : String} {desc : HolidayDesc} (hmem : (mdStr, desc) ∈ events)
    (hbad : parseMonthDay mdStr = none) : loadYearEvents events = none := by
  induction events with
  | nil => cases hmem
  | cons e rest ih =>
    obtain ⟨a, b⟩ := e
    rcases List.mem_cons.mp hmem with he | hm
    · rw [loadYearEvents]
      injection he with h1 h2
      subst h1
      subst h2
      rw [hbad]
    · rw [loadYearEvents]
      cases hp : parseMonthDay a
      · rfl
      · rw [ih hm]
  
/-- C4 amended: a malformed "MM-DD" entry aborts the whole load — the
index comes back empty, dropping even the well-formed entries — and a
missing or malformed source likewise yields the empty index; construction
itself never fails (it is a total function), and when a year's entries do
load, every entry is present with its reasons normalized to a list. -/
theorem c4_malformed_entry_empties_index :
    (∀ (raw : List (String × List (String × HolidayDesc)))
        (year : String) (events : List (String × HolidayDesc))
        (mdStr : String) (desc : HolidayDesc),
      (year, events) ∈ raw → (mdStr, desc) ∈ events → parseMonthDay mdStr = none →
      loadHolidaysFromFile (some raw) = []) ∧
    loadHolidaysFromFile none = [] ∧
    (∀ (events : List (String × HolidayDesc))
        (l : List ((Int × Int) × List String)) (mdStr : String) (desc : HolidayDesc),
      loadYearEvents events = some l → (mdStr, desc) ∈ events →
      ∃ md, parseMonthDay mdStr = some md ∧ (md, normalizeDesc desc) ∈ l) := by
  refine ⟨?_, rfl, ?_⟩
  · intro raw year events mdStr desc hyr hmem hbad
    have hcore : loadHolidaysCore raw = none := by
      induction raw with
      | nil => cases hyr
      | cons e rest ih =>
        obtain ⟨ys, evs⟩ := e
        rw [loadHolidaysCore]
        rcases List.mem_cons.mp hyr with he | hm
        · injection he with h1 h2
          subst h1
          subst h2
          cases hp : parsePyInt year
          · rfl
          · rw [loadYearEvents_eq_none hmem hbad]
        · cases hp : parsePyInt ys
          · rfl
          · cases hl : loadYearEvents evs
            · rfl
            · rw [ih hm]
    rw [loadHolidaysFromFile, hcore]
  · intro events l mdStr desc hload hmem
    induction events generalizing l with
    | nil => cases hmem
    | cons e rest ih =>
      obtain ⟨a, b⟩ := e
      rw [loadYearEvents] at hload
      rcases hp : parseMonthDay a with _ | md <;> rw [hp] at hload
      · cases hload
      · rcases hr : loadYearEvents rest with _ | lr <;> rw [hr] at hload
        · cases hload
        · cases hload
          rcases List.mem_cons.mp hmem with he | hm
          · injection he with h1 h2
            subst h1
            subst h2
            exact ⟨md, hp, List.mem_cons_self _ _⟩
          · obtain ⟨md2, hp2, hmem2⟩ := ih lr hr hm
            exact ⟨md2, hp2, List.mem_cons_of_mem _ hmem2⟩

/-- Witness for the amended C4: the counterexample source loads to the
empty index via the general theorem, and in an all-well-formed year the
Nowruz entry appears with its reason list normalized. -/
theorem c4_witness :
    loadHolidaysFromFile
        (some [("1403", [("01-01", .str "Nowruz"), ("xx-yy", .str "Bad")])]) = [] ∧
    (∃ md, parseMonthDay "01-01" = some md ∧
      (md, normalizeDesc (.str "Nowruz")) ∈ [(((1 : Int), (1 : Int)), ["Nowruz"])]) :=
  ⟨c4_malformed_entry_empties_index.1
      [("1403", [("01-01", .str "Nowruz"), ("xx-yy", .str "Bad")])]
      "1403" [("01-01", .str "Nowruz"), ("xx-yy", .str "Bad")]
      "xx-yy" (.str "Bad")
      (List.mem_singleton.mpr rfl)
      (List.mem_cons_of_mem _ (List.mem_singleton.mpr rfl))
      (by decide),
   c4_malformed_entry_empties_index.2.2
      [("01-01", .str "Nowruz")] [(((1 : Int), (1 : Int)), ["Nowruz"])]
      "01-01" (.str "Nowruz") (by decide) (List.mem_singleton.mpr rfl)⟩

/-! ## Midnight refresh scheduler

The Qt runtime state that matters for the timer invariant: the set of
started, not-yet-fired single-shot midnight timers (identified by ids) and
the object's `_midnight_timer` attribute.  A timer is "active" iff it is
in the pending set; the event loop can only fire pending timers, and a
single-shot timer leaves the pending set when it fires or is stopped. -/

/-- The scheduler-relevant state of `SystemTrayIcon`. -/
structure SchedState where
  pendingTimers : List Nat
  midnightTimerRef : Option Nat
  nextId : Nat
deriving DecidableEq, Repr

/-- `SystemTrayIcon.schedule_next_midnight_check`
(tray_controller.py:117-130): if the `_midnight_timer` attribute exists
and that timer is active, stop it (removing it from the pending set) and
drop the attribute; then create a fresh single-shot timer, start it, and
store it in the attribute. -/
def scheduleNextMidnightCheck (s : SchedState) : SchedState :=
  let pending :=
    match s.midnightTimerRef with
    | some t => if t ∈ s.pendingTimers then s.pendingTimers.erase t else s.pendingTimers
    | none => s.pendingTimers
  { pendingTimers := pending ++ [s.nextId],
    midnightTimerRef := some s.nextId,
    nextId := s.nextId + 1 }

/-- The external events the scheduler reacts to. -/
inductive SchedEvent where
  | minuteTick
  | midnightFire (t : Nat)
  | timeChange
deriving DecidableEq, Repr

/-- One step of the scheduler.  A minute tick (`update_tray_icon`) does
not touch the midnight timer.  A single-shot timer `t` can fire only while
pending; firing removes it from the pending set and runs
`_on_midnight_timer_triggered`, which ends by rescheduling.
`_handle_system_time_change` also ends by rescheduling
(tray_controller.py:110-138). -/
def schedStep (s : SchedState) : SchedEvent → SchedState
  | .minuteTick => s
  | .midnightFire t =>
    if t ∈ s.pendingTimers then
      scheduleNextMidnightCheck { s with pendingTimers := s.pendingTimers.erase t }
    else s
  | .timeChange => scheduleNextMidnightCheck s

/-- The state right after `_setup_timers` (tray_controller.py:102-108):
no midnight timer exists yet and `schedule_next_midnight_check` is called
once. -/
def initSchedState : SchedState :=
  scheduleNextMidnightCheck ⟨[], none, 0⟩

/-- Run the scheduler from initialization through a list of events. -/
def runSched (evs : List SchedEvent) : SchedState :=
  evs.foldl schedStep initSchedState

/-- The inductive invariant: at most one pending midnight timer, and any
pending timer is the one held by the `_midnight_timer` attribute. -/
def SchedInv (s : SchedState) : Prop :=
  s.pendingTimers.length ≤ 1 ∧
  ∀ t ∈ s.pendingTimers, s.midnightTimerRef = some t

lemma schedInv_schedule (s : SchedState) (h : SchedInv s) :
    SchedInv (scheduleNextMidnightCheck s) := by
  obtain ⟨hlen, href⟩ := h
  unfold scheduleNextMidnightCheck SchedInv
  rcases hp : s.pendingTimers with _ | ⟨t0, rest⟩
  · cases hr : s.midnightTimerRef <;> simp [hp, hr]
  · have hrest : rest = [] := by
      rw [hp] at hlen
      simpa using List.length_eq_zero.mp (by simpa using hlen)
    subst hrest
    have href0 : s.midnightTimerRef = some t0 := href t0 (by rw [hp]; exact List.mem_singleton.mpr rfl)
    rw [href0]
    simp [List.erase_cons_head]

lemma schedInv_step (s : SchedState) (e : SchedEvent) (h : SchedInv s) :
    SchedInv (schedStep s e) := by
  cases e with
  | minuteTick => exact h
  | timeChange => exact schedInv_schedule s h
  | midnightFire t =>
    rw [schedStep]
    by_cases hmem : t ∈ s.pendingTimers
    · rw [if_pos hmem]
      refine schedInv_schedule _ ⟨?_, ?_⟩
      · have := List.length_erase_of_mem hmem
        have := h.1
        simp only at *
        omega
      · intro u hu
        exact h.2 u (List.mem_of_mem_erase hu)
    · rw [if_neg hmem]
      exact h

lemma schedInv_foldl (evs : List SchedEvent) :
    ∀ s : SchedState, SchedInv s → SchedInv (evs.foldl schedStep s) := by
  induction evs with
  | nil => intro s h; exact h
  | cons e evs ih =>
    intro s h
    rw [List.foldl_cons]
    exact ih _ (schedInv_step s e h)

lemma schedInv_init : SchedInv initSchedState := by
  unfold initSchedState scheduleNextMidnightCheck SchedInv
  simp

/-- C6: at every reachable state of the refresh scheduler — after
initialization and any interleaving of minute ticks, midnight fires, and
system time-change signals — at most one midnight single-shot timer is
pending, because every rescheduling step stops any active pending midnight
timer before starting the new one. -/
theorem c6_at_most_one_midnight_timer :
    ∀ evs : List SchedEvent, (runSched evs).pendingTimers.length ≤ 1 := by
  intro evs
  exact (schedInv_foldl evs initSchedState schedInv_init).1

/-! ## `safe_jdate` (date_utils.py:58-63) -/

/-- Modelled from the spec: `jdatetime.date(year, month, day)` raises
`ValueError` (`InvalidDate`, spec §7) on a bad year/month/day combination
and otherwise returns the date value; the library is not part of the
repository.  Per spec §3/§4.1 the month must be 1–12 and the day at most
the month's length; `jdatetime` years start at 1. -/
def jdatetimeDateCtor (y m d : Int) : Except Unit JalaliDate :=
  if 1 ≤ y ∧ 1 ≤ m ∧ m ≤ 12 ∧ 1 ≤ d ∧ d ≤ (jMonthLen y.toNat m.toNat : Int) then
    .ok ⟨y.toNat, m.toNat, d.toNat⟩
  else .error ()

/-- `safe_jdate` (date_utils.py:58-63): construct the date inside a
`try`, catch `ValueError`, and return `None` on failure. -/
def safe_jdate (y m d : Int) : Option JalaliDate :=
  match jdatetimeDateCtor y m d with
  | .ok dt => some dt
  | .error _ => none

/-- C10: `safe_jdate` is total — it returns the corresponding Jalali date
exactly when the integer triple forms a valid Jalali date and `none`
otherwise; the constructor's invalid-date error is always caught, so no
range violation escapes. -/
theorem c10_safe_jdate_total :
    ∀ y m d : Int,
      safe_jdate y m d =
        if validJTriple y.toNat m.toNat d.toNat then
          some ⟨y.toNat, m.toNat, d.toNat⟩
        else none := by
  intro y m d
  unfold safe_jdate jdatetimeDateCtor validJTriple
  by_cases h : 1 ≤ y ∧ 1 ≤ m ∧ m ≤ 12 ∧ 1 ≤ d ∧ d ≤ (jMonthLen y.toNat m.toNat : Int)
  · rw [if_pos h, if_pos (by omega)]
  · rw [if_neg h, if_neg (by omega)]

example : safe_jdate 1403 12 30 = some ⟨1403, 12, 30⟩ := by decide
example : safe_jdate 1404 12 30 = none := by decide
example : safe_jdate 1403 0 5 = none := by decide
example : safe_jdate (-1) 1 1 = none := by decide

/-! ## Calendar conversion (`DateConverterWindow._convert_date`)

The converter window calls `jdatetime.date(y, m, d).togregorian()` and
`jdatetime.date.fromgregorian(date=...)` (converter_window.py:390-428).
The conversion algorithm lives in the `jdatetime` library, which is not
part of the repository; it is modelled from the spec (§4.1: exact,
reversible conversions; §3: month lengths; §9: the 33-year-cycle leap
rule) as a pair of year/month/day ↔ linear-day-count codecs sharing one
epoch, fixed so that 1403-01-01 ↔ 2024-03-20 (and checked against other
published correspondences). -/

/-- Gregorian leap year: the 4/100/400 rule (spec §4.1, also
`is_gregorian_leap_year` in date_utils.py:43-45). -/
def gregorianLeap (y : Nat) : Bool :=
  (y % 4 == 0 && y % 100 != 0) || y % 400 == 0

/-- Length of a Jalali year in days. -/
def jYearLen (y : Nat) : Nat := if jalaliLeap y then 366 else 365

/-- Length of a Gregorian year in days. -/
def gYearLen (y : Nat) : Nat := if gregorianLeap y then 366 else 365

/-- Days in the years `[y, y + k)`, for a calendar with year lengths
`len`. -/
def spanYears (len : Nat → Nat) : Nat → Nat → Nat
  | _, 0 => 0
  | y, k + 1 => len y + spanYears len (y + 1) k

/-- Recover (year, day-of-year) from a day count by peeling whole years
starting at year `y`; `fuel` bounds the recursion and any
`fuel ≥ day count` is enough. -/
def peelYears (len : Nat → Nat) : Nat → Nat → Nat → Nat × Nat
  | 0, y, n => (y, n)
  | fuel + 1, y, n => if n < len y then (y, n) else peelYears len fuel (y + 1) (n - len y)

/-- Zero-based day of the Jalali year of month `m`, day `d` (months 1–6
have 31 days, months 7 on have 30; spec §3). -/
def jDoy (m d : Nat) : Nat :=
  (if m ≤ 6 then (m - 1) * 31 else 186 + (m - 7) * 30) + (d - 1)

/-- Month and day (1-based) from a zero-based Jalali day of year. -/
def jMDofDoy (r : Nat) : Nat × Nat :=
  if r < 186 then (r / 31 + 1, r % 31 + 1)
  else ((r - 186) / 30 + 7, (r - 186) % 30 + 1)

/-- Standard Gregorian month lengths (spec §4.1). -/
def gMonthLen (leap : Bool) (m : Nat) : Nat :=
  if m = 1 then 31 else if m = 2 then (if leap then 29 else 28)
  else if m = 3 then 31 else if m = 4 then 30 else if m = 5 then 31
  else if m = 6 then 30 else if m = 7 then 31 else if m = 8 then 31
  else if m = 9 then 30 else if m = 10 then 31 else if m = 11 then 30
  else 31

/-- Days of the Gregorian year before month `m`. -/
def gDaysBeforeMonth (leap : Bool) : Nat → Nat
  | 0 => 0
  | 1 => 0
  | m + 2 => gDaysBeforeMonth leap (m + 1) + gMonthLen leap (m + 1)

/-- Zero-based day of the Gregorian year. -/
def gDoy (leap : Bool) (m d : Nat) : Nat := gDaysBeforeMonth leap m + (d - 1)

/-- Month and day (1-based) from a zero-based Gregorian day of year, by
walking the months. -/
def gMDofDoyAux (leap : Bool) : Nat → Nat → Nat → Nat × Nat
  | 0, m, r => (m, r + 1)
  | fuel + 1, m, r =>
    if r < gMonthLen leap m then (m, r + 1)
    else gMDofDoyAux leap fuel (m + 1) (r - gMonthLen leap m)

/-- Month and day (1-based) from a zero-based Gregorian day of year. -/
def gMDofDoy (leap : Bool) (r : Nat) : Nat × Nat := gMDofDoyAux leap 11 1 r

/-- Days since Jalali 1-01-01 (day 0). -/
def jOrd (dt : JalaliDate) : Nat :=
  spanYears jYearLen 1 (dt.year - 1) + jDoy dt.month dt.day

/-- Jalali date of a day count since Jalali 1-01-01. -/
def jOfOrd (n : Nat) : JalaliDate :=
  let p := peelYears jYearLen (n + 1) 1 n
  let md := jMDofDoy p.2
  ⟨p.1, md.1, md.2⟩

/-- Days since Gregorian 1-01-01 (proleptic, day 0). -/
def gOrd (g : GregorianDate) : Nat :=
  spanYears gYearLen 1 (g.year - 1) + gDoy (gregorianLeap g.year) g.month g.day

/-- Gregorian date of a day count since Gregorian 1-01-01. -/
def gOfOrd (n : Nat) : GregorianDate :=
  let p := peelYears gYearLen (n + 1) 1 n
  let md := gMDofDoy (gregorianLeap p.1) p.2
  ⟨p.1, md.1, md.2⟩

/-- Day count of Jalali 1-01-01 on the Gregorian scale (= Gregorian
622-03-21): fixes 1403-01-01 ↔ 2024-03-20. -/
def jgEpochOffset : Nat := 226894

/-- Modelled from the spec: `jdatetime.date(...).togregorian()`
(spec §4.1 `to_gregorian`). -/
def to_gregorian (dt : JalaliDate) : GregorianDate :=
  gOfOrd (jOrd dt + jgEpochOffset)

/-- Modelled from the spec: `jdatetime.date.fromgregorian(date=...)`
(spec §4.1 `from_gregorian`). -/
def from_gregorian (g : GregorianDate) : JalaliDate :=
  jOfOrd (gOrd g - jgEpochOffset)

/-! ### Inversion lemmas for the codecs -/

lemma peelYears_spec (len : Nat → Nat) (hpos : ∀ y, 0 < len y) :
    ∀ (k fuel y r : Nat), r < len (y + k) → spanYears len y k + r ≤ fuel →
      peelYears len fuel y (spanYears len y k + r) = (y + k, r) := by
  intro k
  induction k with
  | zero =>
    intro fuel y r hr _
    cases fuel with
    | zero => simp [peelYears, spanYears]
    | succ f =>
      rw [spanYears, Nat.zero_add, peelYears, if_pos (by simpa using hr)]
      simp
  | succ k ih =>
    intro fuel y r hr hfuel
    rw [spanYears] at hfuel ⊢
    cases fuel with
    | zero => exact absurd hfuel (by have := hpos y; omega)
    | succ f =>
      rw [peelYears, if_neg (by have := hpos y; omega)]
      have harr : len y + (spanYears len (y + 1) k + r) - len y
          = spanYears len (y + 1) k + r := by omega
      rw [Nat.add_assoc, harr]
      have hr' : r < len (y + 1 + k) := by
        have : y + 1 + k = y + (k + 1) := by omega
        rw [this]; exact hr
      have hf' : spanYears len (y + 1) k + r ≤ f := by have := hpos y; omega
      rw [ih f (y + 1) r hr' hf']
      congr 1
      omega

lemma spanYears_decomp (len : Nat → Nat) (hpos : ∀ y, 0 < len y) :
    ∀ (n y : Nat), ∃ k r, n = spanYears len y k + r ∧ r < len (y + k) := by
  intro n
  induction n using Nat.strong_induction_on with
  | _ n ih =>
    intro y
    by_cases h : n < len y
    · exact ⟨0, n, by simp [spanYears], by simpa using h⟩
    · have hlt : n - len y < n := by have := hpos y; omega
      obtain ⟨k, r, hn, hr⟩ := ih (n - len y) hlt (y + 1)
      refine ⟨k + 1, r, ?_, ?_⟩
      · rw [spanYears]; omega
      · have : y + (k + 1) = y + 1 + k := by omega
        rw [this]; exact hr

lemma jYearLen_pos : ∀ y, 0 < jYearLen y := by
  intro y; unfold jYearLen; split <;> omega

lemma gYearLen_pos : ∀ y, 0 < gYearLen y := by
  intro y; unfold gYearLen; split <;> omega

set_option maxRecDepth 4000 in
lemma jDoy_lt_of_valid : ∀ (b : Bool), ∀ m < 13, ∀ d < 32, 1 ≤ m → 1 ≤ d →
    d ≤ (if m ≤ 6 then 31 else if m ≤ 11 then 30 else if b then 30 else 29) →
    jDoy m d < (if b then 366 else 365) := by decide

set_option maxRecDepth 4000 in
lemma jMDofDoy_jDoy : ∀ m < 13, ∀ d < 32,
    (1 ≤ m ∧ 1 ≤ d ∧ d ≤ (if m ≤ 6 then 31 else 30)) →
    (jMDofDoy (jDoy m d)).1 = m ∧ (jMDofDoy (jDoy m d)).2 = d := by decide

set_option maxRecDepth 4000 in
lemma gDoy_gMDofDoy : ∀ (b : Bool), ∀ r < 366, (b = false → r < 365) →
    gDoy b (gMDofDoy b r).1 (gMDofDoy b r).2 = r := by decide

/-- Left inverse on day counts: re-encoding the Gregorian date of any day
count gives the day count back. -/
lemma gOrd_gOfOrd (n : Nat) : gOrd (gOfOrd n) = n := by
  obtain ⟨k, r, hn, hr⟩ := spanYears_decomp gYearLen gYearLen_pos n 1
  have hpeel : peelYears gYearLen (n + 1) 1 n = (1 + k, r) := by
    have h := peelYears_spec gYearLen gYearLen_pos k (n + 1) 1 r hr (by omega)
    rw [← hn] at h
    exact h
  unfold gOfOrd gOrd
  rw [hpeel]
  have hdoy : gDoy (gregorianLeap (1 + k)) (gMDofDoy (gregorianLeap (1 + k)) r).1
      (gMDofDoy (gregorianLeap (1 + k)) r).2 = r := by
    refine gDoy_gMDofDoy (gregorianLeap (1 + k)) r ?_ ?_
    · have : gYearLen (1 + k) ≤ 366 := by unfold gYearLen; split <;> omega
      omega
    · intro hb
      have : gYearLen (1 + k) = 365 := by unfold gYearLen; rw [hb]; rfl
      omega
  simp only
  rw [hdoy]
  have : 1 + k - 1 = k := by omega
  rw [this]
  omega

/-- Re-decoding the day count of a valid Jalali date gives the date
back. -/
lemma jOfOrd_jOrd (dt : JalaliDate) (hv : dt.valid) : jOfOrd (jOrd dt) = dt := by
  obtain ⟨hy, hm1, hm12, hd1, hdle⟩ := hv
  have hmlen : dt.day ≤ (if dt.month ≤ 6 then 31 else if dt.month ≤ 11 then 30
      else if jalaliLeap dt.year then 30 else 29) := by
    unfold jMonthLen at hdle
    exact hdle
  have hd31 : dt.day ≤ 31 := by
    by_cases h6 : dt.month ≤ 6
    · rw [if_pos h6] at hmlen; exact hmlen
    · rw [if_neg h6] at hmlen
      by_cases h11 : dt.month ≤ 11
      · rw [if_pos h11] at hmlen; omega
      · rw [if_neg h11] at hmlen
        cases hb : jalaliLeap dt.year <;> rw [hb] at hmlen <;> simp at hmlen <;> omega
  have hmlen2 : dt.day ≤ (if dt.month ≤ 6 then 31 else 30) := by
    by_cases h6 : dt.month ≤ 6
    · rw [if_pos h6] at hmlen ⊢; exact hmlen
    · rw [if_neg h6] at hmlen ⊢
      by_cases h11 : dt.month ≤ 11
      · rw [if_pos h11] at hmlen; omega
      · rw [if_neg h11] at hmlen
        cases hb : jalaliLeap dt.year <;> rw [hb] at hmlen <;> simp at hmlen <;> omega
  have hdoy : jDoy dt.month dt.day < jYearLen dt.year := by
    have h := jDoy_lt_of_valid (jalaliLeap dt.year) dt.month (by omega) dt.day
      (by omega) hm1 hd1 hmlen
    unfold jYearLen
    exact h
  have hspan : jOrd dt = spanYears jYearLen 1 (dt.year - 1) + jDoy dt.month dt.day := rfl
  have hpeel : peelYears jYearLen (jOrd dt + 1) 1 (jOrd dt)
      = (dt.year, jDoy dt.month dt.day) := by
    have h1k : 1 + (dt.year - 1) = dt.year := by omega
    have h := peelYears_spec jYearLen jYearLen_pos (dt.year - 1) (jOrd dt + 1) 1
      (jDoy dt.month dt.day) (by rw [h1k]; exact hdoy) (by rw [← hspan]; omega)
    rw [← hspan, h1k] at h
    exact h
  have hmd := jMDofDoy_jDoy dt.month (by omega) dt.day (by omega) ⟨hm1, hd1, hmlen2⟩
  unfold jOfOrd
  rw [hpeel]
  simp only
  obtain ⟨hmd1, hmd2⟩ := hmd
  rw [hmd1, hmd2]

/-- C5: Jalali→Gregorian→Jalali round trip — for every valid Jalali date
with year in [1, 1600], `from_gregorian (to_gregorian d) = d`. -/
theorem c5_round_trip :
    ∀ dt : JalaliDate, dt.valid → 1 ≤ dt.year → dt.year ≤ 1600 →
      from_gregorian (to_gregorian dt) = dt := by
  intro dt hv _ _
  unfold to_gregorian from_gregorian
  rw [gOrd_gOfOrd]
  rw [Nat.add_sub_cancel]
  exact jOfOrd_jOrd dt hv

/-- Witness for C5 at Nowruz 1403. -/
theorem c5_witness :
    (JalaliDate.valid ⟨1403, 1, 1⟩ ∧
      1 ≤ (⟨1403, 1, 1⟩ : JalaliDate).year ∧ (⟨1403, 1, 1⟩ : JalaliDate).year ≤ 1600) ∧
    from_gregorian (to_gregorian ⟨1403, 1, 1⟩) = ⟨1403, 1, 1⟩ :=
  ⟨⟨by decide, by decide, by decide⟩,
   c5_round_trip ⟨1403, 1, 1⟩ (by decide) (by decide) (by decide)⟩
